import Mathlib

/-!
Verification development for the AI deadlock detection system
(`backend/`): process and resource registries, the resource-allocation-graph
deadlock detector, the rule-boosted risk estimator, and the coordinator
endpoints of `main.py`.

The Python code is shallowly embedded: dictionaries become insertion-ordered
association lists, Python ints become `Nat`/`Int`, Python floats become `ℚ`
(all constants in the code are decimal literals and every operation used is
order-theoretic: `max`, `min`, `+`, comparisons), and the dynamic typing of
dictionary keys — essential for `resolve_deadlock`, which looks up a node
*label string* in an int-keyed dict — is embedded by the sum type `PyKey`.

External collaborators are modelled by their interface: the pickled
classifier artifact is a parameter `model : Option (Features → ℚ)`
(`model.predict_proba`), and `networkx.find_cycle` is modelled by the
executable bounded walk search `hasCycleB` (whose agreement with the
mathematical existence of a directed cycle is proved below) together with a
cycle-choice parameter for the returned node list.
-/

namespace AIDeadlock

/-- A dynamically typed Python dictionary key: either an int or a str.
`ProcessManager.processes` is keyed by ints at creation, but
`resolve_deadlock` in `main.py` passes a node label *string* to
`terminate_process`, so key comparisons across the two types matter. -/
inductive PyKey where
  | vint (n : Nat)
  | vstr (s : String)
deriving DecidableEq, Repr

/-- A process record, as built by `ProcessManager.create_process`. -/
structure ProcRecord where
  id : Nat
  name : String
  allocated : List Nat
  requested : List Nat
  wait_time : ℚ
  created_at : ℚ
  state : String
deriving DecidableEq, Repr

/-- `ProcessManager.__init__`: empty dict, counter 0. -/
structure ProcessManager where
  processes : List (PyKey × ProcRecord)
  process_counter : Nat
deriving DecidableEq, Repr

/-- `ProcessManager.create_process` (`now` stands for `time.time()`). -/
def create_process (name : String) (resources : List Nat) (now : ℚ)
    (pm : ProcessManager) : Nat × ProcessManager :=
  let process_id := pm.process_counter + 1
  (process_id,
    { processes := pm.processes ++
        [(PyKey.vint process_id,
          { id := process_id, name := name, allocated := [],
            requested := resources, wait_time := 0, created_at := now,
            state := "ready" })],
      process_counter := process_id })

/-- `ProcessManager.terminate_process`: `if process_id in self.processes:
del self.processes[process_id]` — deletes the entry with the given key when
present, otherwise a no-op. -/
def terminate_process (process_id : PyKey) (pm : ProcessManager) :
    ProcessManager :=
  { pm with processes := pm.processes.filter fun e => decide (e.1 ≠ process_id) }

/-- `ProcessManager.reset`. -/
def pmReset (_pm : ProcessManager) : ProcessManager :=
  { processes := [], process_counter := 0 }

/-- A resource record, as built by `ResourceManager.create_resource`.
`instances`/`available` are `Int` because the Python code performs no
validation whatsoever on the `instances` argument. -/
structure ResRecord where
  id : Nat
  name : String
  instances : Int
  available : Int
  allocated_to : List Nat
deriving DecidableEq, Repr

/-- `ResourceManager.__init__`: empty dict, counter 0. -/
structure ResourceManager where
  resources : List (Nat × ResRecord)
  resource_counter : Nat
deriving DecidableEq, Repr

/-- The initial (empty) resource registry. -/
def initialRM : ResourceManager := { resources := [], resource_counter := 0 }

/-- `ResourceManager.create_resource`: increments the counter and records
the resource with `available = instances` and `allocated_to = []`.  There is
no validation of `instances`. -/
def create_resource (name : String) (instances : Int)
    (rm : ResourceManager) : Nat × ResourceManager :=
  let resource_id := rm.resource_counter + 1
  (resource_id,
    { resources := rm.resources ++
        [(resource_id,
          { id := resource_id, name := name, instances := instances,
            available := instances, allocated_to := [] })],
      resource_counter := resource_id })

/-- Dictionary lookup `self.resources[resource_id]` (first entry with the
given key). -/
def findRes (resource_id : Nat) : List (Nat × ResRecord) → Option ResRecord
  | [] => none
  | e :: t => if e.1 = resource_id then some e.2 else findRes resource_id t

/-- In-place mutation of the record stored under `resource_id` (order and
the other entries preserved). -/
def updateRes (resource_id : Nat) (r : ResRecord)
    (l : List (Nat × ResRecord)) : List (Nat × ResRecord) :=
  l.map fun e => if e.1 = resource_id then (resource_id, r) else e

/-- `ResourceManager.allocate_resource`: `False` if the id is unknown;
if `available > 0`, decrement `available`, append the process id to
`allocated_to` and return `True`; otherwise `False` with no mutation. -/
def allocate_resource (process_id : Nat) (resource_id : Nat)
    (rm : ResourceManager) : Bool × ResourceManager :=
  match findRes resource_id rm.resources with
  | none => (false, rm)
  | some r =>
    if 0 < r.available then
      let r2 := { r with available := r.available - 1,
                         allocated_to := r.allocated_to ++ [process_id] }
      (true, { rm with resources := updateRes resource_id r2 rm.resources })
    else (false, rm)

/-- `ResourceManager.release_resource`: when the id is known and the process
id occurs in `allocated_to`, remove its first occurrence (`list.remove`) and
increment `available`; otherwise a silent no-op. -/
def release_resource (process_id : Nat) (resource_id : Nat)
    (rm : ResourceManager) : ResourceManager :=
  match findRes resource_id rm.resources with
  | none => rm
  | some r =>
    if process_id ∈ r.allocated_to then
      let r2 := { r with allocated_to := r.allocated_to.erase process_id,
                         available := r.available + 1 }
      { rm with resources := updateRes resource_id r2 rm.resources }
    else rm

/-- `ResourceManager.reset`. -/
def rmReset (_rm : ResourceManager) : ResourceManager := initialRM

/-! ## Deadlock detector (`models/deadlock_detector.py`)

`detect_deadlock` builds the resource-allocation graph with string node
labels `f"P{proc_id}"` / `f"R{res_id}"`: an edge `R → P` for every entry of
the process's `allocated` list and an edge `P → R` for every entry of its
`requested` list (the `resources` argument is never consulted).  The call to
`networkx.find_cycle` is modelled by the executable bounded walk search
`hasCycleB`; `detect_deadlock_iff_hasCycle` below proves that this search
succeeds exactly when the built graph contains a directed cycle. -/

/-- The string form of a dictionary key, as produced by an f-string. -/
def keyStr : PyKey → String
  | PyKey.vint n => toString n
  | PyKey.vstr s => s

/-- Node label `f"P{proc_id}"`. -/
def pNode (k : PyKey) : String := "P" ++ keyStr k

/-- Node label `f"R{res_id}"`. -/
def rNode (rid : Nat) : String := "R" ++ toString rid

/-- The nodes added while processing one process entry: the process node,
then a resource node per `allocated` entry and per `requested` entry. -/
def procNodes (k : PyKey) (p : ProcRecord) : List String :=
  pNode k :: (p.allocated.map rNode ++ p.requested.map rNode)

/-- All nodes added by the graph-building loop of `detect_deadlock`. -/
def buildNodes (processes : List (PyKey × ProcRecord)) : List String :=
  processes.flatMap fun e => procNodes e.1 e.2

/-- The edges added while processing one process entry: `R<id> → P<id>` for
each `allocated` entry, then `P<id> → R<id>` for each `requested` entry. -/
def procEdges (k : PyKey) (p : ProcRecord) : List (String × String) :=
  p.allocated.map (fun rid => (rNode rid, pNode k)) ++
  p.requested.map (fun rid => (pNode k, rNode rid))

/-- All edges of the resource-allocation graph built by `detect_deadlock`. -/
def buildEdges (processes : List (PyKey × ProcRecord)) : List (String × String) :=
  processes.flatMap fun e => procEdges e.1 e.2

/-- `existsWalkB E fuel a b`: some walk along the edges of `E`, of length at
least `1` and at most `fuel`, leads from `a` to `b`. -/
def existsWalkB {α : Type} [DecidableEq α] (E : List (α × α)) :
    Nat → α → α → Bool
  | 0, _, _ => false
  | fuel + 1, a, b =>
      E.any fun e => decide (e.1 = a) && (decide (e.2 = b) || existsWalkB E fuel e.2 b)

/-- Bounded cycle search over a node list `V` and edge list `E`: some node
reaches itself by a nonempty walk of length at most `V.length`. -/
def hasCycleB {α : Type} [DecidableEq α] (E : List (α × α)) (V : List α) : Bool :=
  V.any fun v => existsWalkB E V.length v v

/-- The dictionary returned by `DeadlockDetector.detect_deadlock`
(`cycle` is absent in the no-deadlock case; we use `[]`). -/
structure DeadlockInfo where
  has_deadlock : Bool
  cycle : List String
deriving DecidableEq, Repr

/-- `DeadlockDetector.detect_deadlock`.  `findCycle` models the node list
extracted from the cycle that `networkx.find_cycle` returns; the
`_resources` argument is accepted and ignored, exactly as in the source. -/
def detect_deadlock (findCycle : List (String × String) → List String)
    (processes : List (PyKey × ProcRecord))
    (_resources : List (Nat × ResRecord)) : DeadlockInfo :=
  let E := buildEdges processes
  let V := buildNodes processes
  if hasCycleB E V then { has_deadlock := true, cycle := findCycle E }
  else { has_deadlock := false, cycle := [] }

/-! ## Risk estimator (`models/ai_predictor.py`) -/

/-- The 5-feature vector `[n_processes, n_resources, avg_wait_time,
resource_util, circular_wait]` of `extract_features`. -/
structure Features where
  n_processes : ℚ
  n_resources : ℚ
  avg_wait_time : ℚ
  resource_util : ℚ
  circular_wait : ℚ
deriving DecidableEq, Repr

/-- `AIPredictor.check_circular_wait_advanced`: `1` if any process has both
a nonempty `allocated` and a nonempty `requested` list, else `0`. -/
def check_circular_wait_advanced (processes : List (PyKey × ProcRecord)) : ℚ :=
  if processes.any fun e => decide (e.2.allocated ≠ []) && decide (e.2.requested ≠ [])
  then 1 else 0

/-- `AIPredictor.extract_features`. -/
def extract_features (processes : List (PyKey × ProcRecord))
    (resources : List (Nat × ResRecord)) : Features :=
  let n_processes : ℚ := processes.length
  let n_resources : ℚ := resources.length
  let total_wait : ℚ := (processes.map fun e => e.2.wait_time).sum
  let avg_wait_time : ℚ := if 0 < processes.length then total_wait / n_processes else 0
  let total_allocated : ℚ := ((resources.map fun e => e.2.instances - e.2.available).sum : Int)
  let total_available : ℚ := ((resources.map fun e => e.2.instances).sum : Int)
  let resource_util : ℚ := if 0 < total_available then total_allocated / total_available else 0
  { n_processes := n_processes, n_resources := n_resources,
    avg_wait_time := avg_wait_time, resource_util := resource_util,
    circular_wait := check_circular_wait_advanced processes }

/-- First block of `apply_rule_based_boost`: the circular-wait floor `0.75`,
raised to `0.90` when `resource_util > 0.8` and to `0.85` when
`resource_util > 0.6`. -/
def boost_circular (circular_wait resource_util base_prob : ℚ) : ℚ :=
  if circular_wait = 1 then
    let p := max base_prob 0.75
    if resource_util > 0.8 then max p 0.9
    else if resource_util > 0.6 then max p 0.85
    else p
  else base_prob

/-- Second block: floor `0.70` under high contention
(`resource_util > 0.9 and avg_wait_time > 80`). -/
def boost_contention (resource_util avg_wait_time p : ℚ) : ℚ :=
  if resource_util > 0.9 ∧ avg_wait_time > 80 then max p 0.7 else p

/-- Third block: `+0.15` capped at `1.0` when
`n_processes >= 5 and resource_util > 0.7`. -/
def boost_many_processes (n_processes resource_util p : ℚ) : ℚ :=
  if 5 ≤ n_processes ∧ resource_util > 0.7 then min (p + 0.15) 1 else p

/-- Fourth block: `+0.10` capped at `1.0` when `avg_wait_time > 100`. -/
def boost_long_wait (avg_wait_time p : ℚ) : ℚ :=
  if avg_wait_time > 100 then min (p + 0.1) 1 else p

/-- `AIPredictor.apply_rule_based_boost`: the four sequential reassignments
of `base_prob`, then the final `min(base_prob, 1.0)`. -/
def apply_rule_based_boost (f : Features) (base_prob : ℚ) : ℚ :=
  min (boost_long_wait f.avg_wait_time
        (boost_many_processes f.n_processes f.resource_util
          (boost_contention f.resource_util f.avg_wait_time
            (boost_circular f.circular_wait f.resource_util base_prob)))) 1

/-- The dictionary returned by `AIPredictor.predict_deadlock`. -/
structure Prediction where
  deadlock_probability : ℚ
  risk_level : String
deriving DecidableEq, Repr

/-- `AIPredictor.get_risk_level`. -/
def get_risk_level (probability : ℚ) : String :=
  if probability < 0.3 then "LOW"
  else if probability < 0.7 then "MEDIUM"
  else "HIGH"

/-- The probability `predict_deadlock` computes for a feature vector: the
classifier's base probability, adjusted by `apply_rule_based_boost`
(lines computing `base_probability` and `adjusted_probability`). -/
def predict_on_features (m : Features → ℚ) (f : Features) : ℚ :=
  apply_rule_based_boost f (m f)

/-- `AIPredictor.predict_deadlock`.  The pickled classifier artifact is the
parameter `model` (`None` gives probability `0.0` and level `UNKNOWN`). -/
def predict_deadlock (model : Option (Features → ℚ))
    (processes : List (PyKey × ProcRecord))
    (resources : List (Nat × ResRecord)) : Prediction :=
  let features := extract_features processes resources
  match model with
  | none => { deadlock_probability := 0, risk_level := "UNKNOWN" }
  | some m =>
      let adjusted := predict_on_features m features
      { deadlock_probability := adjusted, risk_level := get_risk_level adjusted }

/-! ## Coordinator endpoints (`main.py`) -/

/-- The two module-level registries of `main.py`. -/
structure SysState where
  pm : ProcessManager
  rm : ResourceManager
deriving DecidableEq, Repr

/-- The response dictionary of the `/api/process/request` endpoint. -/
inductive RequestResult where
  | blocked (reason : String) (probability : ℚ)
  | outcome (status : String) (deadlock_detected : Bool)
deriving DecidableEq, Repr

/-- `resolve_deadlock` in `main.py`: when the cycle list is nonempty, the
victim is its *first node label* (a string such as `"P1"` or `"R2"`), and
`terminate_process` is called with that string as the key.  WebSocket
notifications touch no registry state and are not modelled. -/
def resolve_deadlock (deadlock_cycle : List String) (pm : ProcessManager) :
    ProcessManager :=
  match deadlock_cycle with
  | [] => pm
  | victim :: _ => terminate_process (PyKey.vstr victim) pm

/-- The `/api/process/request` endpoint (`request_resource` in `main.py`):
predict; short-circuit to `blocked` when the probability exceeds `0.7`;
otherwise allocate, re-run detection on the updated registries, resolve if a
deadlock was found, and report the outcome. -/
def request_resource (model : Option (Features → ℚ))
    (findCycle : List (String × String) → List String)
    (process_id resource_id : Nat) (s : SysState) : RequestResult × SysState :=
  let prediction := predict_deadlock model s.pm.processes s.rm.resources
  if 0.7 < prediction.deadlock_probability then
    (RequestResult.blocked "High deadlock probability" prediction.deadlock_probability, s)
  else
    let alloc := allocate_resource process_id resource_id s.rm
    let deadlock_info := detect_deadlock findCycle s.pm.processes alloc.2.resources
    let pm2 := if deadlock_info.has_deadlock
               then resolve_deadlock deadlock_info.cycle s.pm
               else s.pm
    (RequestResult.outcome (if alloc.1 then "allocated" else "failed")
       deadlock_info.has_deadlock,
     { pm := pm2, rm := alloc.2 })

/-! ## Resource-registry operation sequences (for the registry invariant) -/

/-- One external operation on the resource registry. -/
inductive RMOp where
  | create (name : String) (instances : Int)
  | alloc (process_id : Nat) (resource_id : Nat)
  | release (process_id : Nat) (resource_id : Nat)
  | reset
deriving DecidableEq, Repr

/-- Apply one operation (the returned id / success flag is discarded). -/
def applyOp (rm : ResourceManager) : RMOp → ResourceManager
  | RMOp.create name instances => (create_resource name instances rm).2
  | RMOp.alloc pid rid => (allocate_resource pid rid rm).2
  | RMOp.release pid rid => release_resource pid rid rm
  | RMOp.reset => rmReset rm

/-- Run a sequence of operations from the freshly constructed registry. -/
def runOps (ops : List RMOp) : ResourceManager :=
  ops.foldl applyOp initialRM

/-- The §3 record invariant: `available = instances − len(allocated_to)` and
`available` never negative, for every record in the registry. -/
def RMInv (rm : ResourceManager) : Prop :=
  ∀ e ∈ rm.resources,
    e.2.available = e.2.instances - e.2.allocated_to.length ∧ 0 ≤ e.2.available

/-! ## Directed cycles: correctness of the bounded walk search

`stepRel E` is the edge relation of the directed graph whose edge list is
`E`; `HasCycle E` says the graph contains a directed cycle, i.e. a nonempty
closed walk (a `Chain'` of consecutive edges leading from some node back to
itself).  `hasCycleB_iff` proves the bounded search equivalent to this. -/

/-- The edge relation of the graph with edge list `E`. -/
def stepRel {α : Type} (E : List (α × α)) (x y : α) : Prop := (x, y) ∈ E

/-- The graph with edge list `E` contains a directed cycle: some node `a`
admits a nonempty closed walk `a → … → a` along edges of `E`. -/
def HasCycle {α : Type} (E : List (α × α)) : Prop :=
  ∃ a l, List.Chain' (stepRel E) (a :: (l ++ [a]))

/-- `allocUpdate` is the success-branch post-state of `allocate_resource`:
the targeted record loses one `available` unit and gains `process_id` at
the end of `allocated_to`. -/
def allocUpdate (process_id resource_id : Nat) (r : ResRecord)
    (rm : ResourceManager) : ResourceManager :=
  let r2 := { r with available := r.available - 1,
                     allocated_to := r.allocated_to ++ [process_id] }
  { rm with resources := updateRes resource_id r2 rm.resources }

/-- `releaseUpdate` is the present-branch post-state of `release_resource`:
the targeted record loses the first occurrence of `process_id` from
`allocated_to` and gains one `available` unit. -/
def releaseUpdate (process_id resource_id : Nat) (r : ResRecord)
    (rm : ResourceManager) : ResourceManager :=
  let r2 := { r with allocated_to := r.allocated_to.erase process_id,
                     available := r.available + 1 }
  { rm with resources := updateRes resource_id r2 rm.resources }

/-- Whether a dictionary key is an int (every key `create_process` makes
is). -/
def PyKey.isInt : PyKey → Bool
  | PyKey.vint _ => true
  | PyKey.vstr _ => false

/-- A `create` operation with a non-negative instance count (all other
operations qualify vacuously). -/
def createNonneg : RMOp → Bool
  | RMOp.create _ instances => decide (0 ≤ instances)
  | _ => true

/-- The two-process deadlock snapshot of `/api/test/setup-deadlock`:
P1 holds R1 and requests R2, P2 holds R2 and requests R1 (after the direct
field assignments performed by that endpoint). -/
def pmDeadlock : ProcessManager :=
  { processes :=
      [(PyKey.vint 1,
        { id := 1, name := "P1", allocated := [1], requested := [2],
          wait_time := 0, created_at := 0, state := "ready" }),
       (PyKey.vint 2,
        { id := 2, name := "P2", allocated := [2], requested := [1],
          wait_time := 0, created_at := 0, state := "ready" })],
    process_counter := 2 }

/-- An empty system state (no processes, no resources). -/
def sEmpty : SysState :=
  { pm := { processes := [], process_counter := 0 }, rm := initialRM }

/-- A classifier artifact that always reports probability `1`. -/
def clfOne : Features → ℚ := fun _ => 1

/-- An admissible classifier artifact (outputs are probabilities in
`[0,1]`) that answers `0.6` at low utilization and `0.1` otherwise. -/
def clfStep : Features → ℚ := fun f => if f.resource_util < 0.5 then 0.6 else 0.1

/-- Feature vector with low utilization (all other features as in
`fHighUtil`). -/
def fLowUtil : Features :=
  { n_processes := 1, n_resources := 1, avg_wait_time := 0,
    resource_util := 0.4, circular_wait := 0 }

/-- Feature vector agreeing with `fLowUtil` except for a higher
utilization. -/
def fHighUtil : Features :=
  { n_processes := 1, n_resources := 1, avg_wait_time := 0,
    resource_util := 0.95, circular_wait := 0 }

/-- Feature vector with a circular wait and utilization `0.85`. -/
def fCirc : Features :=
  { n_processes := 2, n_resources := 2, avg_wait_time := 0,
    resource_util := 0.85, circular_wait := 1 }

/-- The record of `rmExhausted`'s single resource: one instance, none
available, held by process 7. -/
def recExhausted : ResRecord :=
  { id := 1, name := "tape", instances := 1, available := 0,
    allocated_to := [7] }

/-- A registry with one exhausted resource (`available = 0`). -/
def rmExhausted : ResourceManager :=
  { resources := [(1, recExhausted)], resource_counter := 1 }

/-- The record of `rmDup`'s single resource: four instances, one free —
and `allocated_to` lists process 5 twice around a 7. -/
def recDup : ResRecord :=
  { id := 1, name := "disk", instances := 4, available := 1,
    allocated_to := [5, 7, 5] }

/-- A registry with one resource whose `allocated_to` already contains
duplicates. -/
def rmDup : ResourceManager :=
  { resources := [(1, recDup)], resource_counter := 1 }

/-- An operation sequence with a valid create, two allocations and a
release. -/
def opsSeq : List RMOp :=
  [RMOp.create "a" 2, RMOp.alloc 1 1, RMOp.alloc 2 1, RMOp.release 1 1]

/-- The record produced by `create_resource "x" (-1)`: a negative
`available` count. -/
def recNeg : ResRecord :=
  { id := 1, name := "x", instances := -1, available := -1, allocated_to := [] }

theorem existsWalkB_sound {α : Type} [DecidableEq α] {E : List (α × α)} {fuel : Nat} :
    ∀ {a b : α}, existsWalkB E fuel a b = true →
      ∃ l, List.Chain' (stepRel E) (a :: (l ++ [b])) := by
  induction fuel with
  | zero => intro a b h; simp [existsWalkB] at h
  | succ f ih =>
    intro a b h
    rw [existsWalkB, List.any_eq_true] at h
    obtain ⟨e, he, hc⟩ := h
    rw [Bool.and_eq_true, decide_eq_true_eq, Bool.or_eq_true, decide_eq_true_eq] at hc
    obtain ⟨h1, h2 | h2⟩ := hc
    · refine ⟨[], ?_⟩
      have hab : (a, b) ∈ E := by rw [← h1, ← h2]; exact he
      simpa using List.chain'_pair.mpr hab
    · obtain ⟨l, hl⟩ := ih h2
      refine ⟨e.2 :: l, ?_⟩
      have hae : (a, e.2) ∈ E := by rw [← h1]; exact he
      rw [List.cons_append]
      exact List.chain'_cons.mpr ⟨hae, hl⟩

theorem chain_existsWalkB {α : Type} [DecidableEq α] {E : List (α × α)} :
    ∀ {l : List α} {a b : α} {fuel : Nat},
      List.Chain' (stepRel E) (a :: (l ++ [b])) → l.length + 1 ≤ fuel →
      existsWalkB E fuel a b = true := by
  intro l
  induction l with
  | nil =>
    intro a b fuel h hf
    obtain ⟨f, rfl⟩ : ∃ f, fuel = f + 1 := ⟨fuel - 1, by omega⟩
    rw [existsWalkB, List.any_eq_true]
    have hab : (a, b) ∈ E := by
      have := List.chain'_pair.mp (by simpa using h)
      simpa [stepRel] using this
    exact ⟨(a, b), hab, by simp⟩
  | cons c l2 ih =>
    intro a b fuel h hf
    obtain ⟨f, rfl⟩ : ∃ f, fuel = f + 1 := ⟨fuel - 1, by omega⟩
    rw [List.cons_append] at h
    have h1 := List.chain'_cons.mp h
    have hac : (a, c) ∈ E := h1.1
    rw [existsWalkB, List.any_eq_true]
    refine ⟨(a, c), hac, ?_⟩
    have hrec : existsWalkB E f c b = true := by
      apply ih h1.2
      simp only [List.length_cons] at hf
      omega
    simp [hrec]

theorem chain_mem_of_edges_mem {α : Type} {E : List (α × α)} {V : List α}
    (hE : ∀ e ∈ E, e.1 ∈ V ∧ e.2 ∈ V) :
    ∀ {w : List α}, List.Chain' (stepRel E) w → 2 ≤ w.length →
      ∀ x ∈ w, x ∈ V := by
  intro w
  induction w with
  | nil => simp
  | cons a t ih =>
    intro h hlen x hx
    cases t with
    | nil => simp at hlen
    | cons b t2 =>
      have h1 := List.chain'_cons.mp h
      have hab := hE _ h1.1
      rcases List.mem_cons.mp hx with rfl | hx2
      · exact hab.1
      · cases t2 with
        | nil =>
          have : x = b := by simpa using hx2
          exact this ▸ hab.2
        | cons c t3 => exact ih h1.2 (by simp) x hx2

theorem exists_dup_split {α : Type} [DecidableEq α] {w : List α} (h : ¬ w.Nodup) :
    ∃ x w1 w2 w3, w = w1 ++ x :: (w2 ++ x :: w3) := by
  induction w with
  | nil => simp at h
  | cons a t ih =>
    rw [List.nodup_cons] at h
    push_neg at h
    by_cases ha : a ∈ t
    · obtain ⟨s, u, rfl⟩ := List.append_of_mem ha
      exact ⟨a, [], s, u, by simp⟩
    · obtain ⟨x, w1, w2, w3, rfl⟩ := ih (h ha)
      exact ⟨x, a :: w1, w2, w3, by simp⟩

theorem chain_compress {α : Type} [DecidableEq α] {E : List (α × α)} :
    ∀ (n : Nat) (w : List α), w.length ≤ n → List.Chain' (stepRel E) w →
      ∃ w4, List.Chain' (stepRel E) w4 ∧ w4.Nodup ∧
        w4.head? = w.head? ∧ w4.getLast? = w.getLast? ∧ w4 ⊆ w := by
  intro n
  induction n with
  | zero =>
    intro w hw _
    have hnil : w = [] := List.length_eq_zero.mp (Nat.le_zero.mp hw)
    exact ⟨[], List.chain'_nil, List.nodup_nil, by simp [hnil], by simp [hnil],
      by simp [hnil]⟩
  | succ n ih =>
    intro w hw hc
    by_cases hnd : w.Nodup
    · exact ⟨w, hc, hnd, rfl, rfl, fun x hx => hx⟩
    · obtain ⟨x, w1, w2, w3, rfl⟩ := exists_dup_split hnd
      have hsplit := List.chain'_append.mp hc
      have hinner : List.Chain' (stepRel E) ((x :: w2) ++ (x :: w3)) := by
        have := hsplit.2.1
        simpa using this
      have hinner2 := List.chain'_append.mp hinner
      have hshort : List.Chain' (stepRel E) (w1 ++ x :: w3) := by
        apply List.chain'_append.mpr
        refine ⟨hsplit.1, hinner2.2.1, ?_⟩
        intro p hp q hq
        apply hsplit.2.2 p hp q
        simpa using hq
      have hlen : (w1 ++ x :: w3).length ≤ n := by
        simp only [List.length_append, List.length_cons] at hw ⊢
        omega
      obtain ⟨w4, h4c, h4n, h4h, h4l, h4s⟩ := ih _ hlen hshort
      refine ⟨w4, h4c, h4n, ?_, ?_, ?_⟩
      · rw [h4h]
        cases w1 <;> simp
      · rw [h4l]
        have e1 : (w1 ++ x :: w3).getLast? = (x :: w3).getLast? :=
          List.getLast?_append_cons w1 x w3
        have e2 : (w1 ++ x :: (w2 ++ x :: w3)).getLast? = (x :: w3).getLast? := by
          rw [List.getLast?_append_cons]
          have : (x :: (w2 ++ x :: w3)) = (x :: w2) ++ (x :: w3) := by simp
          rw [this, List.getLast?_append_cons]
        rw [e1, e2]
      · intro y hy
        have := h4s hy
        simp only [List.mem_append, List.mem_cons] at this ⊢
        tauto

theorem hasCycleB_iff {α : Type} [DecidableEq α] {E : List (α × α)} {V : List α}
    (hE : ∀ e ∈ E, e.1 ∈ V ∧ e.2 ∈ V) :
    hasCycleB E V = true ↔ HasCycle E := by
  constructor
  · intro h
    rw [hasCycleB, List.any_eq_true] at h
    obtain ⟨v, _, hw⟩ := h
    obtain ⟨l, hl⟩ := existsWalkB_sound hw
    exact ⟨v, l, hl⟩
  · rintro ⟨a, l, hl⟩
    rw [hasCycleB, List.any_eq_true]
    cases l with
    | nil =>
      have haa : (a, a) ∈ E := by
        have := List.chain'_pair.mp (by simpa using hl)
        simpa [stepRel] using this
      have haV : a ∈ V := (hE _ haa).1
      refine ⟨a, haV, ?_⟩
      apply chain_existsWalkB (l := []) (by simpa using hl)
      have := List.length_pos_of_mem haV
      simp only [List.length_nil]
      omega
    | cons b l2 =>
      have h1 : stepRel E a b ∧ List.Chain' (stepRel E) (b :: (l2 ++ [a])) := by
        rw [List.cons_append] at hl
        exact List.chain'_cons.mp hl
      have hab : (a, b) ∈ E := h1.1
      have haV : a ∈ V := (hE _ hab).1
      refine ⟨a, haV, ?_⟩
      obtain ⟨w4, h4c, h4n, h4h, h4l, h4s⟩ :=
        chain_compress (E := E) (b :: (l2 ++ [a])).length _ le_rfl h1.2
      obtain ⟨t, rfl⟩ : ∃ t, w4 = b :: t := by
        cases w4 with
        | nil => simp at h4h
        | cons c t =>
          have hcb : c = b := by simpa using h4h
          exact ⟨t, by rw [hcb]⟩
      have hlast : (b :: t).getLast? = some a := by
        rw [h4l]
        have : b :: (l2 ++ [a]) = (b :: l2) ++ [a] := by simp
        rw [this, List.getLast?_append_cons]
        rfl
      cases t with
      | nil =>
        have hba : b = a := by simpa using hlast
        rw [hba] at hab
        apply chain_existsWalkB (l := [])
        · simpa using List.chain'_pair.mpr (show stepRel E a a from hab)
        · have := List.length_pos_of_mem haV
          simp only [List.length_nil]
          omega
      | cons c t2 =>
        obtain ⟨mid, hmid⟩ : ∃ mid, c :: t2 = mid ++ [a] := by
          refine ⟨(c :: t2).dropLast, ?_⟩
          have : (c :: t2).getLast? = some a := by
            rw [← hlast]; rfl
          exact (List.dropLast_append_getLast? a this).symm
        have hchain : List.Chain' (stepRel E) (a :: ((b :: mid) ++ [a])) := by
          rw [List.cons_append]
          apply List.chain'_cons.mpr
          refine ⟨h1.1, ?_⟩
          rw [← hmid]
          exact h4c
        apply chain_existsWalkB hchain
        -- size: the compressed walk b :: c :: t2 is nodup and inside V
        have hwalkV : ∀ x ∈ (b :: (l2 ++ [a])), x ∈ V := by
          intro x hx
          apply chain_mem_of_edges_mem hE (w := a :: (b :: (l2 ++ [a])))
          · rw [show a :: (b :: (l2 ++ [a])) = a :: ((b :: l2) ++ [a]) by simp]
            exact hl
          · simp
          · exact List.mem_cons_of_mem a hx
        have hsubV : (b :: c :: t2) ⊆ V := fun x hx => hwalkV x (h4s hx)
        have hlenV : (b :: c :: t2).length ≤ V.length :=
          (List.subperm_of_subset h4n hsubV).length_le
        rw [hmid] at hlenV
        simp only [List.length_cons, List.length_append, List.length_cons] at hlenV ⊢
        omega

/-- Every endpoint of an edge of the built resource-allocation graph is
among the built nodes. -/
theorem buildEdges_mem_nodes {processes : List (PyKey × ProcRecord)} :
    ∀ e ∈ buildEdges processes, e.1 ∈ buildNodes processes ∧ e.2 ∈ buildNodes processes := by
  intro e he
  rw [buildEdges, List.mem_flatMap] at he
  obtain ⟨p, hp, hpe⟩ := he
  rw [procEdges, List.mem_append] at hpe
  have hnode : ∀ x ∈ procNodes p.1 p.2, x ∈ buildNodes processes := by
    intro x hx
    rw [buildNodes, List.mem_flatMap]
    exact ⟨p, hp, hx⟩
  have hP : pNode p.1 ∈ procNodes p.1 p.2 := by
    rw [procNodes]; exact List.mem_cons_self _ _
  rcases hpe with h | h <;> obtain ⟨rid, hrid, rfl⟩ := List.mem_map.mp h
  · constructor
    · apply hnode
      rw [procNodes]
      exact List.mem_cons_of_mem _
        (List.mem_append.mpr (Or.inl (List.mem_map.mpr ⟨rid, hrid, rfl⟩)))
    · exact hnode _ hP
  · constructor
    · exact hnode _ hP
    · apply hnode
      rw [procNodes]
      exact List.mem_cons_of_mem _
        (List.mem_append.mpr (Or.inr (List.mem_map.mpr ⟨rid, hrid, rfl⟩)))

/-! ## Registry lemmas -/

theorem findRes_mem {l : List (Nat × ResRecord)} {rid : Nat} {r : ResRecord} :
    findRes rid l = some r → (rid, r) ∈ l := by
  induction l with
  | nil => intro h; simp [findRes] at h
  | cons e t ih =>
    intro h
    rw [findRes] at h
    split_ifs at h with hk
    · have h2 := Option.some.inj h
      exact List.mem_cons.mpr (Or.inl (by rw [← hk, ← h2]))
    · exact List.mem_cons_of_mem _ (ih h)

theorem mem_updateRes {rid : Nat} {r : ResRecord} {l : List (Nat × ResRecord)}
    {e : Nat × ResRecord} (he : e ∈ updateRes rid r l) : e = (rid, r) ∨ e ∈ l := by
  rw [updateRes, List.mem_map] at he
  obtain ⟨x, hx, hxe⟩ := he
  by_cases hk : x.1 = rid
  · rw [if_pos hk] at hxe
    exact Or.inl hxe.symm
  · rw [if_neg hk] at hxe
    exact Or.inr (hxe ▸ hx)

theorem RMInv_initial : RMInv initialRM := by
  intro e he
  simp [initialRM] at he

theorem RMInv_applyOp {rm : ResourceManager} {op : RMOp} (hinv : RMInv rm)
    (hop : createNonneg op = true) : RMInv (applyOp rm op) := by
  cases op with
  | create name instances =>
    intro e he
    simp only [applyOp, create_resource] at he
    rcases List.mem_append.mp he with h | h
    · exact hinv e h
    · obtain rfl := List.mem_singleton.mp h
      refine ⟨by simp, ?_⟩
      have h0 : (0 : Int) ≤ instances := by simpa [createNonneg] using hop
      simpa using h0
  | alloc pid rid =>
    cases hfind : findRes rid rm.resources with
    | none =>
      have hstate : applyOp rm (RMOp.alloc pid rid) = rm := by
        simp [applyOp, allocate_resource, hfind]
      rw [hstate]; exact hinv
    | some r =>
      by_cases hav : 0 < r.available
      · have hstate : applyOp rm (RMOp.alloc pid rid) = allocUpdate pid rid r rm := by
          simp [applyOp, allocate_resource, hfind, hav, allocUpdate]
        rw [hstate]
        intro e he
        simp only [allocUpdate] at he
        rcases mem_updateRes he with rfl | hmem
        · have hr := hinv _ (findRes_mem hfind)
          have h1 : r.available = r.instances - r.allocated_to.length := hr.1
          have h2 : (0 : Int) ≤ r.available := hr.2
          constructor
          · simp [List.length_append]
            omega
          · simp
            omega
        · exact hinv _ hmem
      · have hstate : applyOp rm (RMOp.alloc pid rid) = rm := by
          simp [applyOp, allocate_resource, hfind, hav]
        rw [hstate]; exact hinv
  | release pid rid =>
    cases hfind : findRes rid rm.resources with
    | none =>
      have hstate : applyOp rm (RMOp.release pid rid) = rm := by
        simp [applyOp, release_resource, hfind]
      rw [hstate]; exact hinv
    | some r =>
      by_cases hpmem : pid ∈ r.allocated_to
      · have hstate : applyOp rm (RMOp.release pid rid) = releaseUpdate pid rid r rm := by
          simp [applyOp, release_resource, hfind, hpmem, releaseUpdate]
        rw [hstate]
        intro e he
        simp only [releaseUpdate] at he
        rcases mem_updateRes he with rfl | hmem2
        · have hr := hinv _ (findRes_mem hfind)
          have h1 : r.available = r.instances - r.allocated_to.length := hr.1
          have h2 : (0 : Int) ≤ r.available := hr.2
          have hlen : (r.allocated_to.erase pid).length = r.allocated_to.length - 1 :=
            List.length_erase_of_mem hpmem
          have hpos : 0 < r.allocated_to.length := List.length_pos_of_mem hpmem
          constructor
          · simp [hlen]
            omega
          · simp
            omega
        · exact hinv _ hmem2
      · have hstate : applyOp rm (RMOp.release pid rid) = rm := by
          simp [applyOp, release_resource, hfind, hpmem]
        rw [hstate]; exact hinv
  | reset =>
    intro e he
    simp [applyOp, rmReset, initialRM] at he

theorem RMInv_foldl {ops : List RMOp} :
    ∀ {rm : ResourceManager}, RMInv rm → (∀ op ∈ ops, createNonneg op = true) →
      RMInv (ops.foldl applyOp rm) := by
  induction ops with
  | nil => intro rm h _; simpa using h
  | cons op t ih =>
    intro rm h hall
    rw [List.foldl_cons]
    exact ih (RMInv_applyOp h (hall op (List.mem_cons_self _ _)))
      (fun o ho => hall o (List.mem_cons_of_mem _ ho))

/-! ## Rule-boost lemmas -/

theorem boost_contention_ge {c u w p : ℚ} (h : c ≤ p) : c ≤ boost_contention u w p := by
  rw [boost_contention]
  split_ifs
  · exact le_trans h (le_max_left _ _)
  · exact h

theorem boost_many_processes_ge {c n u p : ℚ} (h : c ≤ p) (hc : c ≤ 1) :
    c ≤ boost_many_processes n u p := by
  rw [boost_many_processes]
  split_ifs
  · exact le_min (by linarith) hc
  · exact h

theorem boost_long_wait_ge {c w p : ℚ} (h : c ≤ p) (hc : c ≤ 1) :
    c ≤ boost_long_wait w p := by
  rw [boost_long_wait]
  split_ifs
  · exact le_min (by linarith) hc
  · exact h

theorem boost_circular_eq (c u p : ℚ) :
    boost_circular c u p =
      if c = 1 then
        max p (if u > 0.8 then 0.9 else if u > 0.6 then 0.85 else 0.75)
      else p := by
  simp only [boost_circular]
  split_ifs
  · rw [max_assoc]
    congr 1
    exact max_eq_right (by norm_num)
  · rw [max_assoc]
    congr 1
    exact max_eq_right (by norm_num)
  · rfl
  · rfl

theorem boost_circular_le_one {c u p : ℚ} (h : p ≤ 1) : boost_circular c u p ≤ 1 := by
  rw [boost_circular_eq]
  split_ifs <;> first | exact h | exact max_le h (by norm_num)

theorem boost_contention_le_one {u w p : ℚ} (h : p ≤ 1) : boost_contention u w p ≤ 1 := by
  rw [boost_contention]
  split_ifs
  · exact max_le h (by norm_num)
  · exact h

theorem boost_many_processes_le_one {n u p : ℚ} (h : p ≤ 1) :
    boost_many_processes n u p ≤ 1 := by
  rw [boost_many_processes]
  split_ifs
  · exact min_le_right _ _
  · exact h

theorem circular_floor_mono {u1 u2 : ℚ} (hu : u1 ≤ u2) :
    (if u1 > 0.8 then (0.9 : ℚ) else if u1 > 0.6 then 0.85 else 0.75) ≤
      (if u2 > 0.8 then (0.9 : ℚ) else if u2 > 0.6 then 0.85 else 0.75) := by
  split_ifs <;> linarith

theorem boost_circular_mono (c : ℚ) {u1 u2 p1 p2 : ℚ} (hu : u1 ≤ u2) (hp : p1 ≤ p2) :
    boost_circular c u1 p1 ≤ boost_circular c u2 p2 := by
  rw [boost_circular_eq, boost_circular_eq]
  by_cases h1 : c = 1
  · rw [if_pos h1, if_pos h1]
    exact max_le_max hp (circular_floor_mono hu)
  · rw [if_neg h1, if_neg h1]
    exact hp

theorem boost_contention_mono {u1 u2 w1 w2 p1 p2 : ℚ} (hu : u1 ≤ u2) (hw : w1 ≤ w2)
    (hp : p1 ≤ p2) : boost_contention u1 w1 p1 ≤ boost_contention u2 w2 p2 := by
  by_cases ha : u1 > 0.9 ∧ w1 > 80
  · have hb : u2 > 0.9 ∧ w2 > 80 := ⟨lt_of_lt_of_le ha.1 hu, lt_of_lt_of_le ha.2 hw⟩
    rw [boost_contention, boost_contention, if_pos ha, if_pos hb]
    exact max_le_max hp le_rfl
  · rw [boost_contention, boost_contention, if_neg ha]
    split_ifs
    · exact le_trans hp (le_max_left _ _)
    · exact hp

theorem boost_many_processes_mono (n : ℚ) {u1 u2 p1 p2 : ℚ} (hu : u1 ≤ u2)
    (hp : p1 ≤ p2) (h1 : p1 ≤ 1) :
    boost_many_processes n u1 p1 ≤ boost_many_processes n u2 p2 := by
  by_cases ha : 5 ≤ n ∧ u1 > 0.7
  · have hb : 5 ≤ n ∧ u2 > 0.7 := ⟨ha.1, lt_of_lt_of_le ha.2 hu⟩
    rw [boost_many_processes, boost_many_processes, if_pos ha, if_pos hb]
    exact min_le_min (by linarith) le_rfl
  · rw [boost_many_processes, boost_many_processes, if_neg ha]
    split_ifs
    · exact le_min (by linarith) h1
    · exact hp

theorem boost_long_wait_mono {w1 w2 p1 p2 : ℚ} (hw : w1 ≤ w2) (hp : p1 ≤ p2)
    (h1 : p1 ≤ 1) : boost_long_wait w1 p1 ≤ boost_long_wait w2 p2 := by
  by_cases ha : w1 > 100
  · have hb : w2 > 100 := lt_of_lt_of_le ha hw
    rw [boost_long_wait, boost_long_wait, if_pos ha, if_pos hb]
    exact min_le_min (by linarith) le_rfl
  · rw [boost_long_wait, boost_long_wait, if_neg ha]
    split_ifs
    · exact le_min (by linarith) h1
    · exact hp

/-! ## Claim theorems -/

/-- Claim C1 (code_bug): `resolve_deadlock` never terminates any process,
let alone exactly one member of the cycle.  The victim it passes to
`terminate_process` is the node label *string* `cycle[0]` (for example
`"P1"`, and it need not even be a process-typed node), while the process
registry is keyed by ints, so the guard `process_id in self.processes` is
always false: for every registry whose keys are all ints — which every
registry built by `create_process` is — and every cycle list, the registry
is returned unchanged. -/
theorem resolve_deadlock_terminates_no_process (pm : ProcessManager)
    (cycle : List String) (h : ∀ e ∈ pm.processes, PyKey.isInt e.1 = true) :
    resolve_deadlock cycle pm = pm := by
  cases cycle with
  | nil => rfl
  | cons v t =>
    show terminate_process (PyKey.vstr v) pm = pm
    rw [terminate_process]
    have hf : pm.processes.filter (fun e => decide (e.1 ≠ PyKey.vstr v)) = pm.processes := by
      apply List.filter_eq_self.mpr
      intro e he
      have hi := h e he
      cases hk : e.1 with
      | vint n => simp
      | vstr s => rw [hk] at hi; simp [PyKey.isInt] at hi
    rw [hf]

/-- Witness for C1 at the two-process deadlock scenario: resolving the
detected cycle `["P1", "R2", "P2", "R1"]` leaves both processes alive. -/
theorem resolve_deadlock_terminates_no_process_witness :
    resolve_deadlock ["P1", "R2", "P2", "R1"] pmDeadlock = pmDeadlock ∧
    pmDeadlock.processes.length = 2 :=
  ⟨resolve_deadlock_terminates_no_process pmDeadlock _ (by decide), rfl⟩

/-- Claim C2 counterexample: creating a resource with `instances = 0 < 1`
is not rejected and no `InvalidInstanceCount` failure exists — the call
succeeds, assigns id 1, and adds a record with `available = 0`. -/
theorem create_resource_accepts_invalid_instances :
    (create_resource "x" 0 initialRM).1 = 1 ∧
    (create_resource "x" 0 initialRM).2.resources ≠ [] ∧
    (create_resource "x" 0 initialRM).2.resources =
      [(1, { id := 1, name := "x", instances := 0, available := 0,
             allocated_to := [] })] :=
  ⟨rfl, by decide, rfl⟩

/-- Claim C2 as amended: `create_resource` performs no validation of
`instances`; for every name and every instance count — including counts
below 1 — it assigns the next id and appends a record with
`available = instances` and `allocated_to = []`. -/
theorem create_resource_spec (name : String) (instances : Int)
    (rm : ResourceManager) :
    (create_resource name instances rm).1 = rm.resource_counter + 1 ∧
    (create_resource name instances rm).2.resource_counter = rm.resource_counter + 1 ∧
    (create_resource name instances rm).2.resources =
      rm.resources ++
        [(rm.resource_counter + 1,
          { id := rm.resource_counter + 1, name := name, instances := instances,
            available := instances, allocated_to := [] })] :=
  ⟨rfl, rfl, rfl⟩

/-- Claim C3: whenever the risk estimator's probability exceeds `0.7`,
`request_resource` answers `blocked` with the reason string and that
probability, and the returned system state is exactly the input state —
no registry record, availability count, or allocation list is touched. -/
theorem request_resource_blocked_frame (model : Option (Features → ℚ))
    (findCycle : List (String × String) → List String)
    (process_id resource_id : Nat) (s : SysState)
    (h : 0.7 < (predict_deadlock model s.pm.processes s.rm.resources).deadlock_probability) :
    request_resource model findCycle process_id resource_id s =
      (RequestResult.blocked "High deadlock probability"
        (predict_deadlock model s.pm.processes s.rm.resources).deadlock_probability, s) := by
  simp only [request_resource]
  rw [if_pos h]

/-- Witness for C3: a constant-`1` classifier pushes the prediction past
`0.7` on the empty state, and the call returns `blocked` with the state
unchanged. -/
theorem request_resource_blocked_frame_witness :
    0.7 < (predict_deadlock (some clfOne) sEmpty.pm.processes
      sEmpty.rm.resources).deadlock_probability ∧
    request_resource (some clfOne) (fun _ => []) 1 1 sEmpty =
      (RequestResult.blocked "High deadlock probability"
        (predict_deadlock (some clfOne) sEmpty.pm.processes
          sEmpty.rm.resources).deadlock_probability, sEmpty) := by
  have hp : (predict_deadlock (some clfOne) sEmpty.pm.processes
      sEmpty.rm.resources).deadlock_probability = 1 := by
    norm_num [predict_deadlock, predict_on_features, extract_features,
      check_circular_wait_advanced, apply_rule_based_boost, boost_circular,
      boost_contention, boost_many_processes, boost_long_wait, clfOne, sEmpty,
      initialRM]
  have h : (0.7 : ℚ) < (predict_deadlock (some clfOne) sEmpty.pm.processes
      sEmpty.rm.resources).deadlock_probability := by rw [hp]; norm_num
  exact ⟨h, request_resource_blocked_frame (some clfOne) (fun _ => []) 1 1 sEmpty h⟩

/-- Claim C4: for every snapshot of process records, `detect_deadlock`
reports `has_deadlock = true` exactly when the resource-allocation graph
built per §3 (edge `R → P` per `allocated` entry, edge `P → R` per
`requested` entry) contains a directed cycle. -/
theorem detect_deadlock_iff_hasCycle
    (findCycle : List (String × String) → List String)
    (processes : List (PyKey × ProcRecord)) (resources : List (Nat × ResRecord)) :
    (detect_deadlock findCycle processes resources).has_deadlock = true ↔
      HasCycle (buildEdges processes) := by
  have hiff := hasCycleB_iff (E := buildEdges processes)
    (V := buildNodes processes) buildEdges_mem_nodes
  simp only [detect_deadlock]
  by_cases h : hasCycleB (buildEdges processes) (buildNodes processes) = true
  · rw [if_pos h]
    exact iff_of_true rfl (hiff.mp h)
  · rw [if_neg h]
    exact iff_of_false (by simp) (fun hc => h (hiff.mpr hc))

/-- Claim C5: with `circular_wait = 1` and `resource_util = 0.85`, the
boosted probability is at least `0.90` whatever the classifier's base
probability, and the final value is clamped to `[0, 1]` (here at least
`0.9 ≥ 0`, and at most `1`). -/
theorem predict_floor_circular_high_util (f : Features) (base_prob : ℚ)
    (hcw : f.circular_wait = 1) (hu : f.resource_util = 0.85) :
    0.9 ≤ apply_rule_based_boost f base_prob ∧
    apply_rule_based_boost f base_prob ≤ 1 := by
  have h1 : (0.9 : ℚ) ≤ boost_circular f.circular_wait f.resource_util base_prob := by
    rw [hcw, hu, boost_circular_eq]
    rw [if_pos rfl]
    rw [if_pos (by norm_num : (0.85 : ℚ) > 0.8)]
    exact le_max_right _ _
  have h2 := boost_contention_ge (u := f.resource_util) (w := f.avg_wait_time) h1
  have h3 := boost_many_processes_ge (n := f.n_processes) (u := f.resource_util) h2
    (by norm_num)
  have h4 := boost_long_wait_ge (w := f.avg_wait_time) h3 (by norm_num)
  constructor
  · rw [apply_rule_based_boost]
    exact le_min h4 (by norm_num)
  · rw [apply_rule_based_boost]
    exact min_le_right _ _

/-- Witness for C5 at a concrete feature vector and base probability 0. -/
theorem predict_floor_circular_high_util_witness :
    fCirc.circular_wait = 1 ∧ fCirc.resource_util = 0.85 ∧
    (0.9 ≤ apply_rule_based_boost fCirc 0 ∧ apply_rule_based_boost fCirc 0 ≤ 1) :=
  ⟨rfl, rfl, predict_floor_circular_high_util fCirc 0 rfl rfl⟩

/-- Claim C6 counterexample: `predict`'s probability is *not* monotone in
utilization, because it also depends on the classifier's base probability.
`clfStep` is an admissible classifier (outputs in `[0,1]`); `fLowUtil` and
`fHighUtil` agree on `circular_wait` and every other feature, with
utilization `0.4 < 0.95` — yet the predicted probability drops from `0.6`
to `0.1`. -/
theorem predict_not_monotone_in_utilization :
    fLowUtil.circular_wait = fHighUtil.circular_wait ∧
    fLowUtil.n_processes = fHighUtil.n_processes ∧
    fLowUtil.n_resources = fHighUtil.n_resources ∧
    fLowUtil.avg_wait_time = fHighUtil.avg_wait_time ∧
    fLowUtil.resource_util < fHighUtil.resource_util ∧
    (0 ≤ clfStep fLowUtil ∧ clfStep fLowUtil ≤ 1) ∧
    (0 ≤ clfStep fHighUtil ∧ clfStep fHighUtil ≤ 1) ∧
    predict_on_features clfStep fLowUtil = 0.6 ∧
    predict_on_features clfStep fHighUtil = 0.1 ∧
    ¬ predict_on_features clfStep fLowUtil ≤ predict_on_features clfStep fHighUtil := by
  have hlow : predict_on_features clfStep fLowUtil = 0.6 := by
    norm_num [predict_on_features, apply_rule_based_boost, boost_circular,
      boost_contention, boost_many_processes, boost_long_wait, clfStep, fLowUtil]
  have hhigh : predict_on_features clfStep fHighUtil = 0.1 := by
    norm_num [predict_on_features, apply_rule_based_boost, boost_circular,
      boost_contention, boost_many_processes, boost_long_wait, clfStep, fHighUtil]
  refine ⟨rfl, rfl, rfl, rfl, by norm_num [fLowUtil, fHighUtil], ?_, ?_, hlow, hhigh, ?_⟩
  · constructor <;> norm_num [clfStep, fLowUtil]
  · constructor <;> norm_num [clfStep, fHighUtil]
  · rw [hlow, hhigh]
    norm_num

/-- Claim C6 as amended: *for a fixed base probability in `[0, 1]`* the
rule-boosted probability is monotonically non-decreasing in utilization
and in mean wait time, holding `circular_wait` (and the remaining
features) fixed — the boost stages only raise floors or add capped
increments. -/
theorem boost_monotone_fixed_base (f1 f2 : Features) (base_prob : ℚ)
    (hb0 : 0 ≤ base_prob) (hb1 : base_prob ≤ 1)
    (hcw : f1.circular_wait = f2.circular_wait)
    (hn : f1.n_processes = f2.n_processes)
    (hnr : f1.n_resources = f2.n_resources)
    (hu : f1.resource_util ≤ f2.resource_util)
    (hw : f1.avg_wait_time ≤ f2.avg_wait_time) :
    apply_rule_based_boost f1 base_prob ≤ apply_rule_based_boost f2 base_prob := by
  have h1 : boost_circular f1.circular_wait f1.resource_util base_prob ≤
      boost_circular f2.circular_wait f2.resource_util base_prob := by
    rw [hcw]
    exact boost_circular_mono _ hu le_rfl
  have h1le : boost_circular f1.circular_wait f1.resource_util base_prob ≤ 1 :=
    boost_circular_le_one hb1
  have h2 := boost_contention_mono hu hw h1
  have h2le : boost_contention f1.resource_util f1.avg_wait_time
      (boost_circular f1.circular_wait f1.resource_util base_prob) ≤ 1 :=
    boost_contention_le_one h1le
  have h3 : boost_many_processes f1.n_processes f1.resource_util
      (boost_contention f1.resource_util f1.avg_wait_time
        (boost_circular f1.circular_wait f1.resource_util base_prob)) ≤
      boost_many_processes f2.n_processes f2.resource_util
      (boost_contention f2.resource_util f2.avg_wait_time
        (boost_circular f2.circular_wait f2.resource_util base_prob)) := by
    rw [hn]
    exact boost_many_processes_mono _ hu h2 h2le
  have h3le := boost_many_processes_le_one (n := f1.n_processes)
    (u := f1.resource_util) h2le
  have h4 := boost_long_wait_mono hw h3 h3le
  rw [apply_rule_based_boost, apply_rule_based_boost]
  exact min_le_min h4 le_rfl

/-- Witness for the amended C6 at concrete inputs. -/
theorem boost_monotone_fixed_base_witness :
    apply_rule_based_boost fLowUtil 0.5 ≤ apply_rule_based_boost fHighUtil 0.5 :=
  boost_monotone_fixed_base fLowUtil fHighUtil 0.5 (by norm_num) (by norm_num)
    rfl rfl rfl (by norm_num [fLowUtil, fHighUtil]) le_rfl

/-- Claim C7 counterexample: the code never validates `instances`, so a
single `create` with `instances = -1` yields a record with
`available = -1 < 0` — the claimed invariant does not hold after every
operation sequence. -/
theorem rm_invariant_fails_without_validation :
    ¬ RMInv (runOps [RMOp.create "x" (-1)]) := by
  intro h
  have hm : ((1 : Nat), recNeg) ∈ (runOps [RMOp.create "x" (-1)]).resources :=
    List.mem_singleton.mpr rfl
  have h2 : (0 : Int) ≤ -1 := (h _ hm).2
  norm_num at h2

/-- Claim C7 as amended: after every sequence of registry operations in
which each `create` carries a non-negative instance count, every record
satisfies `available = instances − len(allocated_to)` and `available` is
never negative. -/
theorem rm_invariant_holds (ops : List RMOp)
    (h : ∀ op ∈ ops, createNonneg op = true) : RMInv (runOps ops) := by
  rw [runOps]
  exact RMInv_foldl RMInv_initial h

/-- Witness for the amended C7 on a create/allocate/allocate/release
sequence. -/
theorem rm_invariant_holds_witness :
    (∀ op ∈ opsSeq, createNonneg op = true) ∧ RMInv (runOps opsSeq) :=
  ⟨by decide, rm_invariant_holds opsSeq (by decide)⟩

/-- Claim C8: on a registry whose availability counts are non-negative
(the §3 data model), `allocate_resource` returns `false` and leaves the
whole registry unchanged when the resource id is unknown or its
`available` is `0`; otherwise it decrements `available` by one, appends
the process id to `allocated_to`, and returns `true`. -/
theorem allocate_resource_spec (rm : ResourceManager) (process_id resource_id : Nat)
    (hwf : ∀ e ∈ rm.resources, 0 ≤ e.2.available) :
    (findRes resource_id rm.resources = none →
      allocate_resource process_id resource_id rm = (false, rm)) ∧
    (∀ r, findRes resource_id rm.resources = some r → r.available = 0 →
      allocate_resource process_id resource_id rm = (false, rm)) ∧
    (∀ r, findRes resource_id rm.resources = some r → r.available ≠ 0 →
      allocate_resource process_id resource_id rm =
        (true, allocUpdate process_id resource_id r rm)) := by
  refine ⟨?_, ?_, ?_⟩
  · intro hnone
    simp [allocate_resource, hnone]
  · intro r hfind h0
    simp [allocate_resource, hfind, h0]
  · intro r hfind hne
    have h0 : (0 : Int) ≤ r.available := hwf _ (findRes_mem hfind)
    have hpos : 0 < r.available := lt_of_le_of_ne h0 (Ne.symm hne)
    simp [allocate_resource, hfind, hpos, allocUpdate]

/-- Witness for C8 on an exhausted resource: allocation fails and the
registry is bit-for-bit unchanged. -/
theorem allocate_resource_spec_witness :
    allocate_resource 9 1 rmExhausted = (false, rmExhausted) :=
  (allocate_resource_spec rmExhausted 9 1 (by decide)).2.1 recExhausted rfl rfl

/-- Claim C9: `release_resource` is a silent no-op when the resource id is
unknown or the process id is not recorded; otherwise it removes exactly
one occurrence of the process id (the count of that id drops by one and
every other count is untouched) and increments `available` by one. -/
theorem release_resource_spec (rm : ResourceManager) (process_id resource_id : Nat) :
    (findRes resource_id rm.resources = none →
      release_resource process_id resource_id rm = rm) ∧
    (∀ r, findRes resource_id rm.resources = some r →
      process_id ∉ r.allocated_to →
      release_resource process_id resource_id rm = rm) ∧
    (∀ r, findRes resource_id rm.resources = some r →
      process_id ∈ r.allocated_to →
      release_resource process_id resource_id rm =
        releaseUpdate process_id resource_id r rm ∧
      (r.allocated_to.erase process_id).count process_id + 1 =
        r.allocated_to.count process_id ∧
      ∀ q, q ≠ process_id →
        (r.allocated_to.erase process_id).count q = r.allocated_to.count q) := by
  refine ⟨?_, ?_, ?_⟩
  · intro hnone
    simp [release_resource, hnone]
  · intro r hfind hnotin
    simp [release_resource, hfind, hnotin]
  · intro r hfind hin
    refine ⟨?_, ?_, ?_⟩
    · simp [release_resource, hfind, hin, releaseUpdate]
    · rw [List.count_erase_self]
      have hpos : 0 < r.allocated_to.count process_id := List.count_pos_iff.mpr hin
      omega
    · intro q hq
      exact List.count_erase_of_ne hq _

/-- Witness for C9 on a record listing process 5 twice: releasing removes
only the first occurrence. -/
theorem release_resource_spec_witness :
    release_resource 5 1 rmDup = releaseUpdate 5 1 recDup rmDup ∧
    (recDup.allocated_to.erase 5).count 5 + 1 = recDup.allocated_to.count 5 ∧
    (releaseUpdate 5 1 recDup rmDup).resources =
      [(1, { id := 1, name := "disk", instances := 4, available := 2,
             allocated_to := [7, 5] })] := by
  have h := (release_resource_spec rmDup 5 1).2.2 recDup rfl (by decide)
  exact ⟨h.1, h.2.1, rfl⟩

/-- Claim C10: `allocate_resource` imposes no condition on the process id.
For *every* process id — registered anywhere or not, already holding this
resource or not — allocation succeeds whenever the resource exists with
`available > 0`, appending one more occurrence of the id to
`allocated_to` (so `allocated_to` can contain duplicates: the count of the
id strictly increases). -/
theorem allocate_resource_any_process (rm : ResourceManager)
    (process_id resource_id : Nat) (r : ResRecord)
    (hfind : findRes resource_id rm.resources = some r)
    (hav : 0 < r.available) :
    allocate_resource process_id resource_id rm =
      (true, allocUpdate process_id resource_id r rm) ∧
    (r.allocated_to ++ [process_id]).count process_id =
      r.allocated_to.count process_id + 1 := by
  constructor
  · simp [allocate_resource, hfind, hav, allocUpdate]
  · simp

/-- Witness for C10: process 7 already holds the resource and is not
registered in any process registry, yet a second allocation succeeds and
`allocated_to` ends up listing 7 twice. -/
theorem allocate_resource_any_process_witness :
    (allocate_resource 7 1 rmDup = (true, allocUpdate 7 1 recDup rmDup) ∧
      (recDup.allocated_to ++ [7]).count 7 = recDup.allocated_to.count 7 + 1) ∧
    (allocUpdate 7 1 recDup rmDup).resources =
      [(1, { id := 1, name := "disk", instances := 4, available := 0,
             allocated_to := [5, 7, 5, 7] })] :=
  ⟨allocate_resource_any_process rmDup 7 1 recDup rfl (by decide), rfl⟩

end AIDeadlock
